import Mathlib

/-!
Verification of the framed-protocol firmware (sources: `src/parser.c`, `src/main.c`).

The embedding models C byte buffers as total functions `Nat → Char` together with
an explicit log of the indices written, C `int` as `Int` wrapped to 16 bits where
overflow can matter, and each C function as a Lean function transcribed branch by
branch from the source.
-/

/-- The C string terminator `'\0'`. -/
def NUL : Char := Char.ofNat 0

/-- Pointwise update of a byte buffer modelled as `Nat → Char`
(the effect of `buf[i] = c`). -/
def updf (f : Nat → Char) (i : Nat) (c : Char) : Nat → Char :=
  fun j => if j = i then c else f j

/-- Sequential writes `buf[i] = c0; buf[i+1] = c1; ...` of a list of bytes. -/
def writeList (f : Nat → Char) (i : Nat) : List Char → Nat → Char
  | [] => f
  | c :: cs => writeList (updf f i c) (i + 1) cs

/-- Read a C string out of a buffer: bytes from position `i` up to (excluding)
the first `'\0'`, with a fuel bound (all buffers in the program are finite). -/
def readCStrAux (f : Nat → Char) : Nat → Nat → List Char
  | 0, _ => []
  | fuel + 1, i => if f i = NUL then [] else f i :: readCStrAux f fuel (i + 1)

/-- Read the C string that starts at position 0 of a buffer.  Fuel 200 covers
both parser buffers (type: 7 bytes, payload: 101 bytes). -/
def cstr (f : Nat → Char) : List Char :=
  readCStrAux f 200 0

/-- The three parser states of the protocol state machine
(`STATE_DOLLAR` / `STATE_TYPE` / `STATE_PAYLOAD` in `parser.h`;
the spec calls them AwaitStart / ReadType / ReadPayload). -/
inductive ParserMode
  | STATE_DOLLAR
  | STATE_TYPE
  | STATE_PAYLOAD
  deriving DecidableEq

/-- `parser_state` from `parser.h`, as used by `parse_byte` in `src/parser.c`:
current mode, the two length counters, and the two character buffers. -/
structure parser_state where
  state : ParserMode
  index_type : Nat
  index_payload : Nat
  msg_type : Nat → Char
  msg_payload : Nat → Char

/-- Which of the two `parser_state` buffers a write went to. -/
inductive WriteTarget
  | typeBuf
  | payloadBuf
  deriving DecidableEq

/-- Result of one `parse_byte` call: the return value (`true` = `NEW_MESSAGE`,
`false` = `NO_MESSAGE`), the updated state, and the log of buffer writes
(target buffer, index) the call performed. -/
structure ParseResult where
  ret : Bool
  ps : parser_state
  writes : List (WriteTarget × Nat)

/-- `parse_byte` from `src/parser.c`, transcribed branch by branch.
`STATE_TYPE` checks `','` first, then the `index_type == 6` overflow guard,
then `'*'`; `STATE_PAYLOAD` checks `'*'` first, then the
`index_payload == 100` guard. -/
def parse_byte (ps : parser_state) (byte : Char) : ParseResult :=
  match ps.state with
  | .STATE_DOLLAR =>
    if byte = '$' then
      ⟨false, { ps with state := .STATE_TYPE, index_type := 0 }, []⟩
    else
      ⟨false, ps, []⟩
  | .STATE_TYPE =>
    if byte = ',' then
      ⟨false, { ps with state := .STATE_PAYLOAD,
                        msg_type := updf ps.msg_type ps.index_type NUL,
                        index_payload := 0 },
        [(.typeBuf, ps.index_type)]⟩
    else if ps.index_type = 6 then
      ⟨false, { ps with state := .STATE_DOLLAR, index_type := 0 }, []⟩
    else if byte = '*' then
      ⟨true, { ps with state := .STATE_DOLLAR,
                       msg_type := updf ps.msg_type ps.index_type NUL,
                       msg_payload := updf ps.msg_payload 0 NUL },
        [(.typeBuf, ps.index_type), (.payloadBuf, 0)]⟩
    else
      ⟨false, { ps with msg_type := updf ps.msg_type ps.index_type byte,
                        index_type := ps.index_type + 1 },
        [(.typeBuf, ps.index_type)]⟩
  | .STATE_PAYLOAD =>
    if byte = '*' then
      ⟨true, { ps with state := .STATE_DOLLAR,
                       msg_payload := updf ps.msg_payload ps.index_payload NUL },
        [(.payloadBuf, ps.index_payload)]⟩
    else if ps.index_payload = 100 then
      ⟨false, { ps with state := .STATE_DOLLAR, index_payload := 0 }, []⟩
    else
      ⟨false, { ps with msg_payload := updf ps.msg_payload ps.index_payload byte,
                        index_payload := ps.index_payload + 1 },
        [(.payloadBuf, ps.index_payload)]⟩

/-- The `(type, payload)` pair an observer recovers from a `parser_state` after a
`NEW_MESSAGE` return: the two buffers read as C strings (this is how `main`
consumes `pstate.msg_type` / `pstate.msg_payload`). -/
def frameMsg (ps : parser_state) : List Char × List Char :=
  (cstr ps.msg_type, cstr ps.msg_payload)

/-- The parser state `main` starts with:
`parser_state pstate = {.state = STATE_DOLLAR}` (remaining fields zero). -/
def initState : parser_state :=
  { state := .STATE_DOLLAR, index_type := 0, index_payload := 0,
    msg_type := fun _ => NUL, msg_payload := fun _ => NUL }

/-- Feed a byte sequence to the parser one byte at a time, collecting the
`(type, payload)` message recovered at each `NEW_MESSAGE` return. -/
def feed (ps : parser_state) : List Char → parser_state × List (List Char × List Char)
  | [] => (ps, [])
  | b :: rest =>
    ((feed (parse_byte ps b).ps rest).1,
      (if (parse_byte ps b).ret then [frameMsg (parse_byte ps b).ps] else []) ++
        (feed (parse_byte ps b).ps rest).2)

/-- 16-bit two's-complement wrap: the value a C `int` (16 bits on this target)
holds after an arithmetic result `n`. -/
def wrap16 (n : Int) : Int :=
  (n + 32768) % 65536 - 32768

/-- The numeric value of a byte as the C expression `str[i] - '0'` sees it
(`char` is signed 8-bit on this target, promoted to `int`). -/
def charToInt (c : Char) : Int :=
  if c.toNat < 128 then (c.toNat : Int) else (c.toNat : Int) - 256

/-- The accumulation loop of `extract_integer` in `src/parser.c`:
`while (str[i] != ',' && str[i] != '\0') { number *= 10; number += str[i] - '0'; i++; }`.
The argument list is the C string from position `i` on (it contains no `'\0'`;
the list end is the terminator). Each intermediate `int` store is wrapped. -/
def extract_go : List Char → Int → Int
  | [], number => number
  | c :: rest, number =>
    if c = ',' then number
    else extract_go rest (wrap16 (wrap16 (number * 10) + (charToInt c - 48)))

/-- `extract_integer` from `src/parser.c`: optional leading `'-'`/`'+'`, then the
accumulation loop, returning `sign * number` (a C `int` product, wrapped). -/
def extract_integer (str : List Char) : Int :=
  match str with
  | [] => wrap16 (1 * extract_go [] 0)
  | c :: rest =>
    if c = '-' then wrap16 ((-1) * extract_go rest 0)
    else if c = '+' then wrap16 (1 * extract_go rest 0)
    else wrap16 (1 * extract_go (c :: rest) 0)

/-- `valid_rates_values` from `src/main.c`. -/
def valid_rates_values : List Int := [0, 1, 2, 4, 5, 10]

/-- `is_valid_rate` from `src/main.c`: linear scan of `valid_rates_values`,
returning 1 (`true`) on a match and 0 (`false`) otherwise. -/
def is_valid_rate (rate : Int) : Bool :=
  valid_rates_values.any (fun v => v = rate)

/-- `struct circular_buffer` from `uart.h` as instantiated in `src/main.c`:
backing storage `buff`, capacity `len`, and the `read`/`write` indices
(zero-initialized globals). -/
structure circular_buffer where
  len : Nat
  buff : Nat → Char
  read : Nat
  write : Nat

/-- The push path of `_U1RXInterrupt` in `src/main.c`:
advance a copy of the write index modulo `len`; if it would meet the read
index the byte is dropped (returns `false`, state unchanged), otherwise the
byte is stored at the old write index and the index advances. -/
def cb_push (cb : circular_buffer) (c : Char) : Bool × circular_buffer :=
  let new_write := (cb.write + 1) % cb.len
  if new_write ≠ cb.read then
    (true, { cb with buff := updf cb.buff cb.write c, write := new_write })
  else
    (false, cb)

/-- The pop path of the drain loop in `main` (`src/main.c` lines 229–241):
if `read != write`, return the byte at `read` and advance `read` modulo `len`. -/
def cb_pop (cb : circular_buffer) : Option (Char × circular_buffer) :=
  if cb.read ≠ cb.write then
    some (cb.buff cb.read, { cb with read := (cb.read + 1) % cb.len })
  else
    none

/-- Push a whole byte list, recording each push's success flag in order. -/
def cb_pushAll (cb : circular_buffer) : List Char → circular_buffer × List Bool
  | [] => (cb, [])
  | c :: cs =>
    let r := cb_push cb c
    let rest := cb_pushAll r.2 cs
    (rest.1, r.1 :: rest.2)

/-- `UART_input_buff` at startup: `len = INPUT_BUFF_LEN = 10`, zeroed storage
and indices (`src/main.c` lines 13, 47, 50–53). -/
def UART_input_buff : circular_buffer :=
  { len := 10, buff := fun _ => NUL, read := 0, write := 0 }

/-- `UART_output_buff` at startup: `len = OUTPUT_BUFF_LEN = 48`, zeroed storage
and indices (`src/main.c` lines 36, 48, 55–58). -/
def UART_output_buff : circular_buffer :=
  { len := 48, buff := fun _ => NUL, read := 0, write := 0 }

/-- The bytes currently queued in a ring buffer, from `read` up to `write`. -/
def cb_contents (cb : circular_buffer) : List Char :=
  (List.range ((cb.write + cb.len - cb.read) % cb.len)).map
    (fun k => cb.buff ((cb.read + k) % cb.len))

/-- Modelled from the spec: `print_to_buff` (declared in `uart.h`, its body is
not under `src/`) "renders ... then pushes each byte individually into the
output ring buffer"; a full buffer silently drops the byte (§4.7, §4.1). -/
def print_to_buff (s : List Char) (cb : circular_buffer) : circular_buffer :=
  s.foldl (fun b c => (cb_push b c).2) cb

/-- The type token `"RATE"` compared against by `main`. -/
def rateStr : List Char := ['R', 'A', 'T', 'E']

/-- The error frame `"$ERR,1*"` queued by `main` when a rate is rejected. -/
def errStr : List Char := ['$', 'E', 'R', 'R', ',', '1', '*']

/-- The `NEW_MESSAGE` handler of `main` (`src/main.c` lines 231–240): on a
completed frame, if the type token is `"RATE"` parse the payload; a valid rate
replaces `print_mag_rate`, an invalid one queues `"$ERR,1*"` on the output
buffer; other type tokens do nothing.  Returns the new rate and output buffer. -/
def handle_new_message (print_mag_rate : Int) (out : circular_buffer)
    (msg_type msg_payload : List Char) : Int × circular_buffer :=
  if msg_type = rateStr then
    let rate := extract_integer msg_payload
    if is_valid_rate rate then
      (rate, out)
    else
      (print_mag_rate, print_to_buff errStr out)
  else
    (print_mag_rate, out)

/-- `struct MagReading` from `src/main.c`: three `long` axis values (32-bit on
this target; the sums formed from 13/15-bit sensor readings cannot overflow,
so plain `Int` is faithful). -/
structure MagReading where
  x : Int
  y : Int
  z : Int
  deriving DecidableEq

/-- Componentwise sum, the effect of the three `sum_reading.* += ...` lines. -/
def addReading (a b : MagReading) : MagReading :=
  ⟨a.x + b.x, a.y + b.y, a.z + b.z⟩

/-- Pointwise update of the readings array (the effect of
`mag_readings.readings[w] = ...`). -/
def updReading (f : Nat → MagReading) (i : Nat) (v : MagReading) : Nat → MagReading :=
  fun j => if j = i then v else f j

/-- `struct MagReadings` from `src/main.c`: write cursor `w` plus the window of
`N_MAG_READINGS = 5` readings (the code only indexes it modulo 5). -/
structure MagReadings where
  w : Nat
  readings : Nat → MagReading

/-- The summation loop of `src/main.c` line 204:
`for (int i = w; i != (w + 1) % 5; i = (i + 1) % 5) sum += readings[i];`
transcribed with the guard checked before each body.  Fuel 6 exceeds the
longest possible run of the loop over 5 residues. -/
def sum_loop (readings : Nat → MagReading) (stop : Nat) : Nat → Nat → MagReading → MagReading
  | _, 0, acc => acc
  | i, fuel + 1, acc =>
    if i = stop then acc
    else sum_loop readings stop ((i + 1) % 5) fuel (addReading acc (readings i))

/-- The scheduled acquisition body of `main` (`src/main.c` lines 195–212):
store the new reading at the cursor, advance the cursor modulo 5, run the
summation loop from the new cursor with bound `(w + 1) % 5`, and divide each
component by `N_MAG_READINGS = 5` with C `long` division (truncation toward
zero, `Int.tdiv`).  Returns the updated window and the new `avg_reading`. -/
def acquire_step (mr : MagReadings) (newR : MagReading) : MagReadings × MagReading :=
  let rds := updReading mr.readings mr.w newR
  let w2 := (mr.w + 1) % 5
  let sum := sum_loop rds ((w2 + 1) % 5) w2 6 ⟨0, 0, 0⟩
  (⟨w2, rds⟩, ⟨Int.tdiv sum.x 5, Int.tdiv sum.y 5, Int.tdiv sum.z 5⟩)

/-- The sum over all 5 window slots, what the spec says the average is built
from. -/
def window_sum (rds : Nat → MagReading) : MagReading :=
  addReading (addReading (addReading (addReading (rds 0) (rds 1)) (rds 2)) (rds 3)) (rds 4)

/-- `main_hz = 100` from `src/main.c` line 182. -/
def main_hz : Int := 100

/-- The magnetometer-telemetry gate of `main` (`src/main.c` lines 217–221):
`if (print_mag_rate && ++print_mag_counter >= (main_hz / print_mag_rate))`.
When the rate is zero the short-circuit skips the increment; otherwise the
counter increments, and on reaching `main_hz / rate` (C integer division) it
resets and a `$MAG,...*` frame is queued.  Returns the new counter and
whether a frame was queued this tick. -/
def mag_tick (print_mag_rate print_mag_counter : Int) : Int × Bool :=
  if print_mag_rate ≠ 0 then
    let c := print_mag_counter + 1
    if c ≥ Int.tdiv main_hz print_mag_rate then (0, true)
    else (c, false)
  else
    (print_mag_counter, false)

/-- Iterate `mag_tick` for `n` ticks, collecting the per-tick queue flags. -/
def mag_run (rate counter : Int) : Nat → Int × List Bool
  | 0 => (counter, [])
  | n + 1 =>
    let r := mag_tick rate counter
    let rest := mag_run rate r.1 n
    (rest.1, r.2 :: rest.2)

/-- Mathematical value of a decimal digit string continued from accumulator `n`
(the ideal, non-wrapping version of the `extract_integer` loop). -/
def digitsFold (n : Int) (ds : List Char) : Int :=
  ds.foldl (fun m c => 10 * m + (charToInt c - 48)) n

/-- Mathematical value of a decimal digit string. -/
def digitsVal (ds : List Char) : Int :=
  digitsFold 0 ds

/-- A concrete pre-acquisition window state: cursor 0, slot `j` holding
`(10(j+1), -10(j+1), 10(j+1))`. -/
def exampleWindow : MagReadings :=
  ⟨0, fun j =>
    if j = 0 then ⟨10, -10, 10⟩
    else if j = 1 then ⟨20, -20, 20⟩
    else if j = 2 then ⟨30, -30, 30⟩
    else if j = 3 then ⟨40, -40, 40⟩
    else ⟨50, -50, 50⟩⟩

/-- A concrete new sensor reading for the acquisition step. -/
def exampleReading : MagReading := ⟨60, -60, 60⟩

/-! ### Parser step lemmas -/

/-- In `STATE_DOLLAR`, a `'$'` byte moves to `STATE_TYPE` with `index_type = 0`. -/
theorem parse_byte_dollar_start (ps : parser_state) (h : ps.state = .STATE_DOLLAR) :
    parse_byte ps '$' =
      ⟨false, { ps with state := .STATE_TYPE, index_type := 0 }, []⟩ := by
  simp [parse_byte, h]

/-- In `STATE_DOLLAR`, a non-`'$'` byte is ignored. -/
theorem parse_byte_dollar_skip (ps : parser_state) (b : Char)
    (h : ps.state = .STATE_DOLLAR) (hb : b ≠ '$') :
    parse_byte ps b = ⟨false, ps, []⟩ := by
  simp [parse_byte, h, hb]

/-- In `STATE_TYPE`, a `','` terminates the type token and opens the payload. -/
theorem parse_byte_type_comma (ps : parser_state) (h : ps.state = .STATE_TYPE) :
    parse_byte ps ',' =
      ⟨false, { ps with state := .STATE_PAYLOAD,
                        msg_type := updf ps.msg_type ps.index_type NUL,
                        index_payload := 0 },
        [(.typeBuf, ps.index_type)]⟩ := by
  simp [parse_byte, h]

/-- In `STATE_TYPE` with the length guard clear, an ordinary byte is appended. -/
theorem parse_byte_type_append (ps : parser_state) (b : Char) (h : ps.state = .STATE_TYPE)
    (hb1 : b ≠ ',') (hb2 : b ≠ '*') (hi : ps.index_type ≠ 6) :
    parse_byte ps b =
      ⟨false, { ps with msg_type := updf ps.msg_type ps.index_type b,
                        index_type := ps.index_type + 1 },
        [(.typeBuf, ps.index_type)]⟩ := by
  simp [parse_byte, h, hb1, hb2, hi]

/-- In `STATE_TYPE` with `index_type = 6`, any byte other than `','` aborts the
frame (this branch fires before the `'*'` check). -/
theorem parse_byte_type_abort (ps : parser_state) (b : Char) (h : ps.state = .STATE_TYPE)
    (hb1 : b ≠ ',') (hi : ps.index_type = 6) :
    parse_byte ps b = ⟨false, { ps with state := .STATE_DOLLAR, index_type := 0 }, []⟩ := by
  simp [parse_byte, h, hb1, hi]

/-- In `STATE_TYPE` with the length guard clear, `'*'` completes a frame with an
empty payload. -/
theorem parse_byte_type_star (ps : parser_state) (h : ps.state = .STATE_TYPE)
    (hi : ps.index_type ≠ 6) :
    parse_byte ps '*' =
      ⟨true, { ps with state := .STATE_DOLLAR,
                       msg_type := updf ps.msg_type ps.index_type NUL,
                       msg_payload := updf ps.msg_payload 0 NUL },
        [(.typeBuf, ps.index_type), (.payloadBuf, 0)]⟩ := by
  simp [parse_byte, h, hi]

/-- In `STATE_PAYLOAD`, `'*'` completes the frame. -/
theorem parse_byte_payload_star (ps : parser_state) (h : ps.state = .STATE_PAYLOAD) :
    parse_byte ps '*' =
      ⟨true, { ps with state := .STATE_DOLLAR,
                       msg_payload := updf ps.msg_payload ps.index_payload NUL },
        [(.payloadBuf, ps.index_payload)]⟩ := by
  simp [parse_byte, h]

/-- In `STATE_PAYLOAD` with the length guard clear, an ordinary byte is appended. -/
theorem parse_byte_payload_append (ps : parser_state) (b : Char)
    (h : ps.state = .STATE_PAYLOAD) (hb : b ≠ '*') (hi : ps.index_payload ≠ 100) :
    parse_byte ps b =
      ⟨false, { ps with msg_payload := updf ps.msg_payload ps.index_payload b,
                        index_payload := ps.index_payload + 1 },
        [(.payloadBuf, ps.index_payload)]⟩ := by
  simp [parse_byte, h, hb, hi]

/-! ### Runs of the parser over byte sequences -/

/-- Feeding a concatenation is feeding the pieces in sequence. -/
theorem feed_append (xs ys : List Char) (ps : parser_state) :
    feed ps (xs ++ ys) =
      ((feed (feed ps xs).1 ys).1, (feed ps xs).2 ++ (feed (feed ps xs).1 ys).2) := by
  induction xs generalizing ps with
  | nil => simp [feed]
  | cons b rest ih =>
    simp only [List.cons_append, feed, List.append_eq]
    rw [ih (parse_byte ps b).ps]
    simp [List.append_assoc]

/-- Writes at positions `≥ i` leave positions `< i` untouched. -/
theorem writeList_lt (T : List Char) (f : Nat → Char) (i j : Nat) (h : j < i) :
    writeList f i T j = f j := by
  induction T generalizing f i with
  | nil => rfl
  | cons c cs ih =>
    simp only [writeList]
    rw [ih (updf f i c) (i + 1) (by omega), updf]
    simp [Nat.ne_of_lt h]

/-- Reading back a just-written, NUL-terminated region recovers exactly the
written bytes (none of which is NUL). -/
theorem readCStr_writeList (T : List Char) (f : Nat → Char) (i fuel : Nat)
    (hc : ∀ c ∈ T, c ≠ NUL) (hfuel : T.length < fuel) :
    readCStrAux (updf (writeList f i T) (i + T.length) NUL) fuel i = T := by
  induction T generalizing f i fuel with
  | nil =>
    obtain ⟨m, rfl⟩ : ∃ m, fuel = m + 1 := ⟨fuel - 1, by omega⟩
    simp [readCStrAux, writeList, updf]
  | cons c cs ih =>
    obtain ⟨m, rfl⟩ : ∃ m, fuel = m + 1 := ⟨fuel - 1, by omega⟩
    have hcc : c ≠ NUL := hc c (by simp)
    have hv : (updf (writeList f i (c :: cs)) (i + (c :: cs).length) NUL) i = c := by
      rw [updf]
      simp only [List.length_cons]
      rw [if_neg (by omega)]
      simp only [writeList]
      rw [writeList_lt cs _ _ _ (by omega), updf]
      simp
    rw [readCStrAux, hv, if_neg hcc]
    have harith : i + (c :: cs).length = (i + 1) + cs.length := by simp; omega
    simp only [writeList, harith]
    rw [ih (updf f i c) (i + 1) m (fun d hd => hc d (by simp [hd])) (by simp at hfuel; omega)]

/-- `cstr` specialization of `readCStr_writeList` to a buffer written from 0. -/
theorem cstr_writeList (T : List Char) (f : Nat → Char)
    (hc : ∀ c ∈ T, c ≠ NUL) (hlen : T.length < 200) :
    cstr (updf (writeList f 0 T) T.length NUL) = T := by
  have := readCStr_writeList T f 0 200 hc hlen
  simpa [cstr] using this

/-- A buffer whose position 0 holds NUL reads back as the empty string. -/
theorem cstr_nul0 (f : Nat → Char) : cstr (updf f 0 NUL) = [] := by
  have h200 : (200 : Nat) = 199 + 1 := rfl
  rw [cstr, h200, readCStrAux]
  simp [updf]

/-! ### Flattened step lemmas: the same `parse_byte` facts with the state given
as an explicit constructor literal, convenient for chaining rewrites. -/

theorem pbf_dollar (it ip : Nat) (mt mp : Nat → Char) :
    parse_byte ⟨.STATE_DOLLAR, it, ip, mt, mp⟩ '$' =
      ⟨false, ⟨.STATE_TYPE, 0, ip, mt, mp⟩, []⟩ := rfl

theorem pbf_comma (it ip : Nat) (mt mp : Nat → Char) :
    parse_byte ⟨.STATE_TYPE, it, ip, mt, mp⟩ ',' =
      ⟨false, ⟨.STATE_PAYLOAD, it, 0, updf mt it NUL, mp⟩, [(.typeBuf, it)]⟩ := rfl

theorem pbf_type_append (b : Char) (it ip : Nat) (mt mp : Nat → Char)
    (hb1 : b ≠ ',') (hb2 : b ≠ '*') (hi : it ≠ 6) :
    parse_byte ⟨.STATE_TYPE, it, ip, mt, mp⟩ b =
      ⟨false, ⟨.STATE_TYPE, it + 1, ip, updf mt it b, mp⟩, [(.typeBuf, it)]⟩ := by
  simp [parse_byte, hb1, hb2, hi]

theorem pbf_type_abort (b : Char) (ip : Nat) (mt mp : Nat → Char) (hb1 : b ≠ ',') :
    parse_byte ⟨.STATE_TYPE, 6, ip, mt, mp⟩ b =
      ⟨false, ⟨.STATE_DOLLAR, 0, ip, mt, mp⟩, []⟩ := by
  simp [parse_byte, hb1]

theorem pbf_type_star (it ip : Nat) (mt mp : Nat → Char) (hi : it ≠ 6) :
    parse_byte ⟨.STATE_TYPE, it, ip, mt, mp⟩ '*' =
      ⟨true, ⟨.STATE_DOLLAR, it, ip, updf mt it NUL, updf mp 0 NUL⟩,
        [(.typeBuf, it), (.payloadBuf, 0)]⟩ := by
  simp [parse_byte, hi]

theorem pbf_payload_append (b : Char) (it ip : Nat) (mt mp : Nat → Char)
    (hb : b ≠ '*') (hi : ip ≠ 100) :
    parse_byte ⟨.STATE_PAYLOAD, it, ip, mt, mp⟩ b =
      ⟨false, ⟨.STATE_PAYLOAD, it, ip + 1, mt, updf mp ip b⟩, [(.payloadBuf, ip)]⟩ := by
  simp [parse_byte, hb, hi]

theorem pbf_payload_star (it ip : Nat) (mt mp : Nat → Char) :
    parse_byte ⟨.STATE_PAYLOAD, it, ip, mt, mp⟩ '*' =
      ⟨true, ⟨.STATE_DOLLAR, it, ip, mt, updf mp ip NUL⟩, [(.payloadBuf, ip)]⟩ := rfl

/-- In `STATE_TYPE`, a run of ordinary bytes that keeps the length within 6 is
appended to the type buffer, emitting nothing. -/
theorem feed_type_run (T : List Char) (it ip : Nat) (mt mp : Nat → Char)
    (hc : ∀ c ∈ T, c ≠ ',' ∧ c ≠ '*') (hlen : it + T.length ≤ 6) :
    feed ⟨.STATE_TYPE, it, ip, mt, mp⟩ T =
      (⟨.STATE_TYPE, it + T.length, ip, writeList mt it T, mp⟩, []) := by
  induction T generalizing it mt with
  | nil => rfl
  | cons c cs ih =>
    have hc1 := hc c (by simp)
    have hne : it ≠ 6 := by simp at hlen; omega
    simp only [feed, pbf_type_append c it ip mt mp hc1.1 hc1.2 hne]
    rw [ih (it + 1) (updf mt it c) (fun d hd => hc d (by simp [hd])) (by simp at hlen ⊢; omega)]
    have harith : it + 1 + cs.length = it + (c :: cs).length := by simp; omega
    rw [harith]
    simp [writeList]

/-- In `STATE_PAYLOAD`, a run of ordinary bytes that keeps the length within
100 is appended to the payload buffer, emitting nothing. -/
theorem feed_payload_run (P : List Char) (it ip : Nat) (mt mp : Nat → Char)
    (hc : ∀ c ∈ P, c ≠ '*') (hlen : ip + P.length ≤ 100) :
    feed ⟨.STATE_PAYLOAD, it, ip, mt, mp⟩ P =
      (⟨.STATE_PAYLOAD, it, ip + P.length, mt, writeList mp ip P⟩, []) := by
  induction P generalizing ip mp with
  | nil => rfl
  | cons c cs ih =>
    have hc1 := hc c (by simp)
    have hne : ip ≠ 100 := by simp at hlen; omega
    simp only [feed, pbf_payload_append c it ip mt mp hc1 hne]
    rw [ih (ip + 1) (updf mp ip c) (fun d hd => hc d (by simp [hd])) (by simp at hlen ⊢; omega)]
    have harith : ip + 1 + cs.length = ip + (c :: cs).length := by simp; omega
    rw [harith]
    simp [writeList]

/-- A full `T,P*` frame body fed from `STATE_TYPE` at index 0 produces exactly
one message, `(T, P)`, regardless of the initial buffer contents. -/
theorem feed_frame_run (T P : List Char) (ip : Nat) (mt mp : Nat → Char)
    (hT6 : T.length ≤ 6) (hTc : ∀ c ∈ T, c ≠ ',' ∧ c ≠ '*' ∧ c ≠ NUL)
    (hP : P.length ≤ 100) (hPc : ∀ c ∈ P, c ≠ '*' ∧ c ≠ NUL) :
    feed ⟨.STATE_TYPE, 0, ip, mt, mp⟩ (T ++ ',' :: (P ++ ['*'])) =
      (⟨.STATE_DOLLAR, T.length, P.length,
        updf (writeList mt 0 T) T.length NUL, updf (writeList mp 0 P) P.length NUL⟩,
       [(T, P)]) := by
  rw [feed_append,
      feed_type_run T 0 ip mt mp (fun c hc => ⟨(hTc c hc).1, (hTc c hc).2.1⟩) (by omega)]
  simp only [Nat.zero_add]
  simp only [feed, pbf_comma]
  try dsimp only
  rw [feed_append, feed_payload_run P T.length 0 (updf (writeList mt 0 T) T.length NUL) mp
        (fun c hc => (hPc c hc).1) (by omega)]
  simp only [Nat.zero_add]
  try dsimp only
  simp only [feed, pbf_payload_star]
  try dsimp only
  simp only [frameMsg, Bool.false_eq_true, if_false, if_true, List.nil_append,
    List.append_nil, List.append_assoc]
  rw [cstr_writeList T mt (fun c hc => (hTc c hc).2.2) (by omega),
      cstr_writeList P mp (fun c hc => (hPc c hc).2) (by omega)]

/-- A comma-less `T*` frame body fed from `STATE_TYPE` at index 0 produces the
message `(T, [])` — provided `T` has at most 5 characters, so that the `'*'`
arrives before the length guard fires. -/
theorem feed_frame_nc_run (T : List Char) (ip : Nat) (mt mp : Nat → Char)
    (hT5 : T.length ≤ 5) (hTc : ∀ c ∈ T, c ≠ ',' ∧ c ≠ '*' ∧ c ≠ NUL) :
    feed ⟨.STATE_TYPE, 0, ip, mt, mp⟩ (T ++ ['*']) =
      (⟨.STATE_DOLLAR, T.length, ip,
        updf (writeList mt 0 T) T.length NUL, updf mp 0 NUL⟩,
       [(T, [])]) := by
  rw [feed_append,
      feed_type_run T 0 ip mt mp (fun c hc => ⟨(hTc c hc).1, (hTc c hc).2.1⟩) (by omega)]
  simp only [Nat.zero_add]
  simp only [feed, pbf_type_star T.length ip _ _ (by omega)]
  try dsimp only
  simp only [frameMsg, Bool.false_eq_true, if_false, if_true, List.nil_append,
    List.append_nil, List.append_assoc]
  rw [cstr_writeList T mt (fun c hc => (hTc c hc).2.2) (by omega), cstr_nul0]

/-! ### Integer parsing lemmas -/

/-- `wrap16` is the identity on values representable in a 16-bit `int`. -/
theorem wrap16_id (k : Int) (h1 : -32768 ≤ k) (h2 : k < 32768) : wrap16 k = k := by
  unfold wrap16
  have h3 : (k + 32768) % 65536 = k + 32768 := Int.emod_eq_of_lt (by omega) (by omega)
  omega

theorem charToInt_digit (c : Char) (h : 48 ≤ c.toNat ∧ c.toNat ≤ 57) :
    charToInt c = (c.toNat : Int) := by
  unfold charToInt
  rw [if_pos (by omega)]

theorem digitsFold_cons (n : Int) (c : Char) (cs : List Char) :
    digitsFold n (c :: cs) = digitsFold (10 * n + (charToInt c - 48)) cs := rfl

/-- Folding digits onto a nonnegative accumulator never decreases it. -/
theorem digitsFold_le (ds : List Char) (n : Int)
    (hd : ∀ c ∈ ds, 48 ≤ c.toNat ∧ c.toNat ≤ 57) (hn : 0 ≤ n) :
    n ≤ digitsFold n ds := by
  induction ds generalizing n with
  | nil => exact le_refl n
  | cons c cs ih =>
    have hc := hd c (by simp)
    have hcv : charToInt c = (c.toNat : Int) := charToInt_digit c hc
    rw [digitsFold_cons]
    have h1 : n ≤ 10 * n + (charToInt c - 48) := by rw [hcv]; omega
    exact le_trans h1 (ih (10 * n + (charToInt c - 48))
      (fun d hd2 => hd d (by simp [hd2])) (by rw [hcv]; omega))

theorem digit_ne_comma (c : Char) (h : 48 ≤ c.toNat ∧ c.toNat ≤ 57) : c ≠ ',' := by
  intro he
  subst he
  simp at h

theorem digit_ne_minus (c : Char) (h : 48 ≤ c.toNat ∧ c.toNat ≤ 57) : c ≠ '-' := by
  intro he
  subst he
  simp at h

theorem digit_ne_plus (c : Char) (h : 48 ≤ c.toNat ∧ c.toNat ≤ 57) : c ≠ '+' := by
  intro he
  subst he
  simp at h

/-- The accumulation loop on a digit string (with an optional `','`-led tail)
computes the string's decimal value, as long as that value fits in an `int`
(then none of the intermediate wraps fires). -/
theorem extract_go_digits (ds tail : List Char) (n : Int)
    (hd : ∀ c ∈ ds, 48 ≤ c.toNat ∧ c.toNat ≤ 57)
    (htail : tail = [] ∨ ∃ t, tail = ',' :: t)
    (hn : 0 ≤ n) (hb : digitsFold n ds < 32768) :
    extract_go (ds ++ tail) n = digitsFold n ds := by
  induction ds generalizing n with
  | nil =>
    rcases htail with rfl | ⟨t, rfl⟩
    · rfl
    · simp [extract_go, digitsFold]
  | cons c cs ih =>
    have hc := hd c (by simp)
    have hcv : charToInt c = (c.toNat : Int) := charToInt_digit c hc
    have hcomma : c ≠ ',' := digit_ne_comma c hc
    have hstep : digitsFold n (c :: cs) = digitsFold (10 * n + (charToInt c - 48)) cs :=
      digitsFold_cons n c cs
    have hlow : 0 ≤ 10 * n + (charToInt c - 48) := by rw [hcv]; omega
    have hmid : 10 * n + (charToInt c - 48) < 32768 := by
      have := digitsFold_le cs (10 * n + (charToInt c - 48))
        (fun d hd2 => hd d (by simp [hd2])) hlow
      omega
    have hw1 : wrap16 (n * 10) = n * 10 := by
      rw [hcv] at hlow hmid
      apply wrap16_id <;> omega
    simp only [List.cons_append, extract_go, if_neg hcomma, hw1]
    have hmul : n * 10 + (charToInt c - 48) = 10 * n + (charToInt c - 48) := by ring_nf
    rw [hmul]
    rw [wrap16_id _ (by omega) (by omega)]
    rw [hstep] at hb ⊢
    exact ih (10 * n + (charToInt c - 48)) (fun d hd2 => hd d (by simp [hd2])) hlow hb

/-- `is_valid_rate` decides membership in the allowed rate set. -/
theorem is_valid_rate_iff (v : Int) :
    is_valid_rate v = true ↔ v ∈ valid_rates_values := by
  simp [is_valid_rate, valid_rates_values]
  constructor
  · rintro (h | h | h | h | h | h) <;> omega
  · rintro (h | h | h | h | h | h) <;> omega

/-! ### Claim theorems -/

/-- C1 (amended): starting from `AwaitStart`, a well-formed frame `$T,P*` with
`|T| ≤ 6` and `|P| ≤ 100` yields exactly one `NewMessage` whose recovered type
is `T` and payload is `P`; a comma-less frame `$T*` does the same with empty
payload provided `|T| ≤ 5` (at `|T| = 6` the length guard fires before the
`'*'` is examined and the frame is aborted). -/
theorem C1_frame_parsing (T P : List Char)
    (hT6 : T.length ≤ 6) (hTc : ∀ c ∈ T, c ≠ ',' ∧ c ≠ '*' ∧ c ≠ NUL)
    (hP : P.length ≤ 100) (hPc : ∀ c ∈ P, c ≠ '*' ∧ c ≠ NUL) :
    (feed initState ('$' :: (T ++ ',' :: (P ++ ['*'])))).2 = [(T, P)] ∧
    (T.length ≤ 5 → (feed initState ('$' :: (T ++ ['*']))).2 = [(T, [])]) := by
  have hinit : initState = ⟨.STATE_DOLLAR, 0, 0, fun _ => NUL, fun _ => NUL⟩ := rfl
  constructor
  · rw [hinit]
    simp only [feed, pbf_dollar]
    rw [feed_frame_run T P 0 (fun _ => NUL) (fun _ => NUL) hT6 hTc hP hPc]
    simp
  · intro hT5
    rw [hinit]
    simp only [feed, pbf_dollar]
    rw [feed_frame_nc_run T 0 (fun _ => NUL) (fun _ => NUL) hT5 hTc]
    simp

/-- C1 counterexample: the comma-less frame `$ABCDEF*` has `|T| = 6 ≤ 6` but
yields no message at all — the `index_type == 6` guard aborts the frame before
the `'*'` branch is reached — refuting the claim's `|T| ≤ 6` bound for the
`$T*` form. -/
theorem C1_counterexample_len6_nocomma :
    (feed initState ['$', 'A', 'B', 'C', 'D', 'E', 'F', '*']).2 = [] ∧
    (feed initState ['$', 'A', 'B', 'C', 'D', 'E', 'F', '*']).2 ≠
      [(['A', 'B', 'C', 'D', 'E', 'F'], [])] := by
  refine ⟨by decide, by decide⟩

/-- Witness for C1 at `T = "R"`, `P = "7"`. -/
theorem C1_frame_parsing_witness :
    (feed initState ('$' :: (['R'] ++ ',' :: (['7'] ++ ['*'])))).2 = [(['R'], ['7'])] ∧
    (feed initState ('$' :: (['R'] ++ ['*']))).2 = [(['R'], [])] := by
  have h := C1_frame_parsing ['R'] ['7'] (by decide) (by decide) (by decide) (by decide)
  exact ⟨h.1, h.2 (by decide)⟩

/-- C2: the code contradicts the window-average specification.  At a concrete
window (slots `(10,-10,10) … (50,-50,50)`, cursor 0) with new reading
`(60,-60,60)`, the assignment at `src/main.c` lines 203–212 produces
`(4, -4, 4)`: the summation loop `for (i = w; i != (w+1)%5; i = (i+1)%5)`
exits after a single iteration, so only one slot (value `(20,-20,20)`) is
summed and divided by 5.  The spec's sum over all 5 slots divided by 5 is
`(40, -40, 40)`. -/
theorem C2_average_single_slot :
    (acquire_step exampleWindow exampleReading).2 = ⟨4, -4, 4⟩ ∧
    (⟨Int.tdiv (window_sum (acquire_step exampleWindow exampleReading).1.readings).x 5,
      Int.tdiv (window_sum (acquire_step exampleWindow exampleReading).1.readings).y 5,
      Int.tdiv (window_sum (acquire_step exampleWindow exampleReading).1.readings).z 5⟩ :
        MagReading) = ⟨40, -40, 40⟩ ∧
    (⟨4, -4, 4⟩ : MagReading) ≠ ⟨40, -40, 40⟩ := by
  refine ⟨by decide, by decide, by decide⟩

/-- C3: from the empty input ring buffer (capacity 10), 9 consecutive pushes
all succeed, the 10th push fails and returns the state unchanged, and after
one pop a further push succeeds — for arbitrary pushed bytes. -/
theorem C3_input_buffer_capacity (c0 c1 c2 c3 c4 c5 c6 c7 c8 c9 d : Char) :
    (cb_pushAll UART_input_buff [c0, c1, c2, c3, c4, c5, c6, c7, c8]).2 =
      List.replicate 9 true ∧
    cb_push (cb_pushAll UART_input_buff [c0, c1, c2, c3, c4, c5, c6, c7, c8]).1 c9 =
      (false, (cb_pushAll UART_input_buff [c0, c1, c2, c3, c4, c5, c6, c7, c8]).1) ∧
    ((cb_pop (cb_pushAll UART_input_buff [c0, c1, c2, c3, c4, c5, c6, c7, c8]).1).map
      (fun pr => (cb_push pr.2 d).1)) = some true := by
  simp [cb_pushAll, cb_push, cb_pop, UART_input_buff, List.replicate]

/-- C4: on a completed `RATE` frame, a parsed value in the allowed set becomes
the new telemetry rate with nothing queued; any other value leaves the rate
unchanged and sends exactly the bytes of `$ERR,1*` to the output path — on
the startup output buffer those bytes are queued verbatim. -/
theorem C4_rate_command_validation (r : Int) (out : circular_buffer) (payload : List Char) :
    (extract_integer payload ∈ valid_rates_values →
      handle_new_message r out rateStr payload = (extract_integer payload, out)) ∧
    (extract_integer payload ∉ valid_rates_values →
      handle_new_message r out rateStr payload = (r, print_to_buff errStr out)) ∧
    cb_contents (print_to_buff errStr UART_output_buff) = errStr := by
  refine ⟨?_, ?_, by decide⟩
  · intro h
    simp [handle_new_message, (is_valid_rate_iff _).2 h]
  · intro h
    have hf : ¬ is_valid_rate (extract_integer payload) = true :=
      fun hh => h ((is_valid_rate_iff _).1 hh)
    simp [handle_new_message, hf]

/-- Witness for C4 at payloads `"5"` (accepted) and `"3"` (rejected). -/
theorem C4_rate_command_validation_witness :
    handle_new_message 5 UART_output_buff rateStr ['5'] =
      (extract_integer ['5'], UART_output_buff) ∧
    handle_new_message 5 UART_output_buff rateStr ['3'] =
      (5, print_to_buff errStr UART_output_buff) :=
  ⟨(C4_rate_command_validation 5 UART_output_buff ['5']).1 (by decide),
   (C4_rate_command_validation 5 UART_output_buff ['3']).2.1 (by decide)⟩

/-- C5: after `$` and six ordinary type bytes, a seventh byte that is neither
`','` nor `'*'` silently aborts the frame (no message, state back to
`AwaitStart`), and a subsequent well-formed frame `$T,P*` is recovered intact,
with no residual state from the abort. -/
theorem C5_type_overflow_recovery (T6 : List Char) (c7 : Char) (T P : List Char)
    (h6 : T6.length = 6) (h6c : ∀ c ∈ T6, c ≠ ',' ∧ c ≠ '*')
    (h7a : c7 ≠ ',') (h7b : c7 ≠ '*')
    (hT6 : T.length ≤ 6) (hTc : ∀ c ∈ T, c ≠ ',' ∧ c ≠ '*' ∧ c ≠ NUL)
    (hP : P.length ≤ 100) (hPc : ∀ c ∈ P, c ≠ '*' ∧ c ≠ NUL) :
    (feed initState ('$' :: (T6 ++ [c7]))).2 = [] ∧
    (feed initState ('$' :: (T6 ++ [c7]))).1.state = .STATE_DOLLAR ∧
    (feed initState (('$' :: (T6 ++ [c7])) ++ ('$' :: (T ++ ',' :: (P ++ ['*']))))).2
      = [(T, P)] := by
  have hinit : initState = ⟨.STATE_DOLLAR, 0, 0, fun _ => NUL, fun _ => NUL⟩ := rfl
  have hpre : feed initState ('$' :: (T6 ++ [c7])) =
      (⟨.STATE_DOLLAR, 0, 0, writeList (fun _ => NUL) 0 T6, fun _ => NUL⟩, []) := by
    rw [hinit]
    simp only [feed, pbf_dollar]
    rw [feed_append, feed_type_run T6 0 0 (fun _ => NUL) (fun _ => NUL) h6c (by omega)]
    simp only [Nat.zero_add, h6]
    simp only [feed, pbf_type_abort c7 0 (writeList (fun _ => NUL) 0 T6) (fun _ => NUL) h7a]
    simp
  refine ⟨by rw [hpre], by rw [hpre], ?_⟩
  rw [feed_append, hpre]
  simp only [feed, pbf_dollar]
  rw [feed_frame_run T P 0 (writeList (fun _ => NUL) 0 T6) (fun _ => NUL) hT6 hTc hP hPc]
  simp

/-- Witness for C5: `$ABCDEFG` aborts, then `$MAG,1*` is recovered. -/
theorem C5_type_overflow_recovery_witness :
    (feed initState ('$' :: (['A', 'B', 'C', 'D', 'E', 'F'] ++ ['G']))).2 = [] ∧
    (feed initState ('$' :: (['A', 'B', 'C', 'D', 'E', 'F'] ++ ['G']))).1.state =
      .STATE_DOLLAR ∧
    (feed initState (('$' :: (['A', 'B', 'C', 'D', 'E', 'F'] ++ ['G'])) ++
      ('$' :: (['M', 'A', 'G'] ++ ',' :: (['1'] ++ ['*']))))).2
      = [(['M', 'A', 'G'], ['1'])] :=
  C5_type_overflow_recovery ['A', 'B', 'C', 'D', 'E', 'F'] 'G' ['M', 'A', 'G'] ['1']
    (by decide) (by decide) (by decide) (by decide) (by decide) (by decide)
    (by decide) (by decide)

/-- C6: a `$MAG,...*` frame is queued only when the telemetry rate is nonzero
(rate 0 never queues, for any counter value), and at rate 5 with a 100 Hz
loop, starting from counter 0, exactly one frame is queued in 20 ticks — on
the 20th — with the counter back at 0, making the emission periodic with
period `100 / 5 = 20` ticks. -/
theorem C6_mag_telemetry_rate :
    (∀ c : Int, (mag_tick 0 c).2 = false) ∧
    mag_run 5 0 20 = (0, List.replicate 19 false ++ [true]) := by
  constructor
  · intro c
    simp [mag_tick]
  · decide

/-- C7: `extract_integer` on an optionally signed digit string (terminated by
the end of the string or by `','`) returns the signed decimal value, whenever
that value fits in a 16-bit `int`. -/
theorem C7_extract_integer_value (ds tail : List Char)
    (hd : ∀ c ∈ ds, 48 ≤ c.toNat ∧ c.toNat ≤ 57)
    (htail : tail = [] ∨ ∃ t, tail = ',' :: t)
    (hb : digitsVal ds < 32768) :
    extract_integer (ds ++ tail) = digitsVal ds ∧
    extract_integer ('-' :: (ds ++ tail)) = -digitsVal ds ∧
    extract_integer ('+' :: (ds ++ tail)) = digitsVal ds := by
  have h0 : (0 : Int) ≤ digitsVal ds := digitsFold_le ds 0 hd (le_refl 0)
  have hb2 : digitsFold 0 ds < 32768 := hb
  have hgo : extract_go (ds ++ tail) 0 = digitsVal ds :=
    extract_go_digits ds tail 0 hd htail (le_refl 0) hb2
  refine ⟨?_, ?_, ?_⟩
  · cases ds with
    | nil =>
      rcases htail with rfl | ⟨t, rfl⟩
      · simp [extract_integer, extract_go, digitsVal, digitsFold, wrap16]
      · simp [extract_integer, extract_go, digitsVal, digitsFold, wrap16]
    | cons c cs =>
      have hc := hd c (by simp)
      simp only [List.cons_append, extract_integer, if_neg (digit_ne_minus c hc),
        if_neg (digit_ne_plus c hc), one_mul]
      rw [← List.cons_append, hgo]
      exact wrap16_id _ (by omega) (by omega)
  · simp only [extract_integer, if_pos]
    rw [hgo, neg_one_mul]
    exact wrap16_id _ (by omega) (by omega)
  · have hpm : ('+' : Char) ≠ '-' := by decide
    simp only [extract_integer, if_neg hpm, if_pos, one_mul]
    rw [hgo]
    exact wrap16_id _ (by omega) (by omega)

/-- Witness for C7: `"123" → 123`, `"-45" → -45`, `"+7" → 7`. -/
theorem C7_extract_integer_value_witness :
    extract_integer (['1', '2', '3'] ++ []) = 123 ∧
    extract_integer ('-' :: (['4', '5'] ++ [])) = -45 ∧
    extract_integer ('+' :: (['7'] ++ [])) = 7 := by
  refine ⟨?_, ?_, ?_⟩
  · have h := (C7_extract_integer_value ['1', '2', '3'] [] (by decide) (Or.inl rfl)
      (by decide)).1
    rw [h]; decide
  · have h := (C7_extract_integer_value ['4', '5'] [] (by decide) (Or.inl rfl)
      (by decide)).2.1
    rw [h]; decide
  · have h := (C7_extract_integer_value ['7'] [] (by decide) (Or.inl rfl)
      (by decide)).2.2
    rw [h]; decide

/-- C9: an empty `RATE` payload — produced both by `$RATE,*` and by `$RATE*` —
parses to 0, which is an allowed rate, so the handler sets the rate to 0
without touching the output buffer, and rate 0 suppresses all periodic
`$MAG` emission. -/
theorem C9_empty_rate_payload_disables :
    (feed initState ['$', 'R', 'A', 'T', 'E', ',', '*']).2 = [(rateStr, [])] ∧
    (feed initState ['$', 'R', 'A', 'T', 'E', '*']).2 = [(rateStr, [])] ∧
    extract_integer [] = 0 ∧
    is_valid_rate 0 = true ∧
    (∀ (r : Int) (out : circular_buffer), handle_new_message r out rateStr [] = (0, out)) ∧
    (∀ c : Int, (mag_tick 0 c).2 = false) := by
  refine ⟨by decide, by decide, by decide, by decide, ?_, ?_⟩
  · intro r out
    have h0 : extract_integer [] = 0 := by decide
    have hv : is_valid_rate 0 = true := by decide
    simp [handle_new_message, h0, hv]
  · intro c
    simp [mag_tick]

/-- C10: a single `parse_byte` call preserves `index_type ≤ 6` and
`index_payload ≤ 100`, and every buffer write it performs lands at index ≤ 6
(type buffer, 7 bytes needed) resp. ≤ 100 (payload buffer, 101 bytes). -/
theorem C10_parser_buffer_bounds (ps : parser_state) (b : Char)
    (ht : ps.index_type ≤ 6) (hp : ps.index_payload ≤ 100) :
    (parse_byte ps b).ps.index_type ≤ 6 ∧ (parse_byte ps b).ps.index_payload ≤ 100 ∧
    ∀ w ∈ (parse_byte ps b).writes,
      (w.1 = WriteTarget.typeBuf → w.2 ≤ 6) ∧ (w.1 = WriteTarget.payloadBuf → w.2 ≤ 100) := by
  obtain ⟨st, it, ip, mt, mp⟩ := ps
  simp only at ht hp
  cases st <;> simp only [parse_byte] <;> split_ifs <;> simp_all <;> omega

/-- Witness for C10 at the startup parser state and byte `'$'`. -/
theorem C10_parser_buffer_bounds_witness :
    (parse_byte initState '$').ps.index_type ≤ 6 ∧
    (parse_byte initState '$').ps.index_payload ≤ 100 ∧
    ∀ w ∈ (parse_byte initState '$').writes,
      (w.1 = WriteTarget.typeBuf → w.2 ≤ 6) ∧ (w.1 = WriteTarget.payloadBuf → w.2 ≤ 100) :=
  C10_parser_buffer_bounds initState '$' (by decide) (by decide)
